import Mathlib

/-!
# draftsync — formal model and verification

Shallow embedding, in Lean 4, of the core of the `draftsync` command-line
tool: the pandoc invocation layer (`src/pandoc.js`), the Google-Docs payload
builder (`src/docs.js`), the manifest store (`readManifest`/`writeManifest`
in `src/drive.js`), and the push/pull command handlers of `src/cli.js`,
together with proofs and refutations of the specified properties.

Conventions of the embedding:
* JavaScript objects used as string maps become association lists
  (`jsLookup` / `jsInsert` mirror property read / property write, keeping
  insertion order as JavaScript does for string keys).
* `null`/`undefined` string parameters become `Option String`; JavaScript
  truthiness of a string value (`if (s)`) becomes `s ≠ ""` on the wrapped
  string, since the empty string is falsy.
* Asynchronous effects (subprocess results, filesystem contents, the clock)
  are passed in explicitly as environment records; each command handler
  returns a result record collecting its observable effects (error output,
  number of authentications and external-tool invocations, manifests
  written).
* A handler that returns normally gives process exit code 0; an exception
  that escapes the handler is an unhandled promise rejection, which makes
  the Node.js process exit non-zero (modelled as exit code 1).
* JavaScript numbers are modelled as `Int` where the program only produces
  integers (process exit codes, JSON numerals) and as `Rat` where fractional
  values occur (margin sizes in inches); binary floating point itself is not
  modelled.
-/

namespace DraftSync

/-! ## External tool invoker — `src/pandoc.js` -/

/-- Embedding of `buildMdToDocxArgs(mdPath, outDocx, refdoc = null)`:
`[mdPath, '-o', outDocx]`, with `['--reference-doc', refdoc]` appended only
when `refdoc` is truthy (`if (refdoc)`), i.e. non-null and non-empty. -/
def buildMdToDocxArgs (mdPath outDocx : String) (refdoc : Option String) : List String :=
  let args := [mdPath, "-o", outDocx]
  match refdoc with
  | some r => if r = "" then args else args ++ ["--reference-doc", r]
  | none => args

/-- Embedding of `buildDocxToMdArgs(docxPath, outMd)`. -/
def buildDocxToMdArgs (docxPath outMd : String) : List String :=
  [docxPath, "-o", outMd]

/-- Result record of `spawnSync('pandoc', args, ...)`: `status` is `null`
(`none`) when the process reported no exit code. -/
structure SpawnResult where
  status : Option Int
  stdoutText : Option String
  stderrText : Option String
deriving DecidableEq

/-- Result record returned by `runPandoc`. -/
structure PandocResult where
  status : Int
  stdoutText : Option String
  stderrText : Option String
deriving DecidableEq

/-- Embedding of `runPandoc(args)`: normalizes a missing exit status to `1`
via `result.status ?? 1`. The spawn outcome is passed in as `res`. -/
def runPandoc (_args : List String) (res : SpawnResult) : PandocResult :=
  { status := res.status.getD 1
    stdoutText := res.stdoutText
    stderrText := res.stderrText }

/-- Embedding of `mdToDocx(mdPath, outDocx, refdoc)`: builds the argument
list, runs pandoc, and throws
`pandoc failed (md → docx) with status ${result.status}` on a non-zero
status. -/
def mdToDocx (mdPath outDocx : String) (refdoc : Option String) (res : SpawnResult) :
    Except String Unit :=
  let result := runPandoc (buildMdToDocxArgs mdPath outDocx refdoc) res
  if result.status ≠ 0 then
    .error ("pandoc failed (md → docx) with status " ++ toString result.status)
  else
    .ok ()

/-- Embedding of `docxToMd(docxPath, outMd)`, symmetric to `mdToDocx` with
direction label `docx → md`. -/
def docxToMd (docxPath outMd : String) (res : SpawnResult) : Except String Unit :=
  let result := runPandoc (buildDocxToMdArgs docxPath outMd) res
  if result.status ≠ 0 then
    .error ("pandoc failed (docx → md) with status " ++ toString result.status)
  else
    .ok ()

/-- Substring containment, stated on the character lists of the strings. -/
def strContains (needle hay : String) : Prop :=
  ∃ pre suf, hay.data = pre ++ needle.data ++ suf

/-! ## Google Docs payload builder — `src/docs.js` -/

/-- Magnitude-with-unit record, as in `{ magnitude: 72, unit: 'PT' }`. -/
structure Dimension where
  magnitude : Rat
  unit : String
deriving DecidableEq

/-- The `documentStyle` payload of an `updateDocumentStyle` request. -/
structure DocumentStyle where
  marginTop : Dimension
  marginBottom : Dimension
  marginLeft : Dimension
  marginRight : Dimension
deriving DecidableEq

/-- The `range` payload of an `updateParagraphStyle` request. -/
structure DocRange where
  startIndex : Int
  endIndex : Int
deriving DecidableEq

/-- One Google Docs `batchUpdate` request, restricted to the three shapes
`buildHouseStyleRequests` produces. -/
inductive GDocsRequest where
  | updateDocumentStyle (documentStyle : DocumentStyle) (fields : String)
  | updateParagraphStyle (range : DocRange) (lineSpacing : Rat) (fields : String)
  | createHeader (type : String) (sectionBreakLocationIndex : Int)
deriving DecidableEq

/-- Options record of `buildHouseStyleRequests`, with the source's
destructuring defaults `marginsInch = 1`, `doubleSpacing = true`,
`headerText = null`. -/
structure HouseStyleOptions where
  marginsInch : Rat := 1
  doubleSpacing : Bool := true
  headerText : Option String := none

/-- Embedding of `buildHouseStyleRequests(options)`: a margins request
(`marginsInch * 72` points on all four sides), then an `updateParagraphStyle`
(line spacing 200 over `[1, -1)`) when `doubleSpacing`, then a `createHeader`
of type `DEFAULT` when `headerText` is truthy (`if (headerText)`). -/
def buildHouseStyleRequests (options : HouseStyleOptions) : List GDocsRequest :=
  let marginPoints := options.marginsInch * 72
  let dim : Dimension := { magnitude := marginPoints, unit := "PT" }
  let marginsReq := GDocsRequest.updateDocumentStyle
    { marginTop := dim, marginBottom := dim, marginLeft := dim, marginRight := dim }
    "marginTop,marginBottom,marginLeft,marginRight"
  let spacingReqs : List GDocsRequest :=
    if options.doubleSpacing then
      [GDocsRequest.updateParagraphStyle { startIndex := 1, endIndex := -1 } 200 "lineSpacing"]
    else []
  let headerReqs : List GDocsRequest :=
    match options.headerText with
    | some h => if h = "" then [] else [GDocsRequest.createHeader "DEFAULT" 1]
    | none => []
  marginsReq :: (spacingReqs ++ headerReqs)

/-! ## JSON values and the platform serializer/parser

The manifest store persists data with `JSON.stringify(obj, null, 2)` and
reads it back with `JSON.parse`. These platform functions are modelled on a
`Json` value type whose numbers are the integers (the only numerals the
program itself produces; binary floating point is not modelled) and whose
strings are Unicode scalar strings. The printer follows ECMA-262
`JSON.stringify` with a 2-space gap; the parser follows `JSON.parse`
restricted to integer numerals. -/

/-- JSON value tree. Object fields keep their written order, as JavaScript
objects do for string keys. -/
inductive Json where
  | null
  | bool (b : Bool)
  | num (n : Int)
  | str (s : String)
  | arr (elems : List Json)
  | obj (fields : List (String × Json))

/-- Lowercase hexadecimal digit for `n < 16`. -/
def hexDigitChar (n : Nat) : Char :=
  if n < 10 then Char.ofNat (48 + n) else Char.ofNat (87 + n)

/-- Escaping of one character inside a JSON string literal, following
`JSON.stringify`: the two-character escapes for quote, backslash and the
named control characters, `\u00XX` for the remaining control characters, and
every other character unchanged. -/
def escapeChar (c : Char) : List Char :=
  if c = '"' then ['\\', '"']
  else if c = '\\' then ['\\', '\\']
  else if c = '\x08' then ['\\', 'b']
  else if c = '\x0c' then ['\\', 'f']
  else if c = '\n' then ['\\', 'n']
  else if c = '\r' then ['\\', 'r']
  else if c = '\t' then ['\\', 't']
  else if c.toNat < 32 then
    ['\\', 'u', '0', '0', hexDigitChar (c.toNat / 16), hexDigitChar (c.toNat % 16)]
  else [c]

/-- Escaping of a whole character sequence. -/
def escapeList : List Char → List Char
  | [] => []
  | c :: rest => escapeChar c ++ escapeList rest

/-- A quoted, escaped JSON string literal. -/
def quoteChars (s : List Char) : List Char :=
  '"' :: (escapeList s ++ ['"'])

/-- Decimal digit character for `n < 10`. -/
def digitChar (n : Nat) : Char := Char.ofNat (48 + n)

/-- Decimal digits of a natural number, most significant first. -/
def natDigits (n : Nat) : List Char :=
  if n < 10 then [digitChar n]
  else natDigits (n / 10) ++ [digitChar (n % 10)]
decreasing_by exact Nat.div_lt_self (by omega) (by omega)

/-- Decimal numeral of an integer, as `JSON.stringify` prints an integral
number. -/
def intChars (n : Int) : List Char :=
  if n < 0 then '-' :: natDigits n.natAbs else natDigits n.toNat

/-- Indentation for nesting depth `d` with the 2-space gap. -/
def indentChars (d : Nat) : List Char := List.replicate (2 * d) ' '

mutual

/-- Characters of `JSON.stringify(v, null, 2)` at nesting depth `d`. -/
def printValue : Json → Nat → List Char
  | .null, _ => ['n', 'u', 'l', 'l']
  | .bool true, _ => ['t', 'r', 'u', 'e']
  | .bool false, _ => ['f', 'a', 'l', 's', 'e']
  | .num n, _ => intChars n
  | .str s, _ => quoteChars s.data
  | .arr [], _ => ['[', ']']
  | .arr (x :: xs), d =>
      '[' :: '\n' :: (printElems (x :: xs) (d + 1) ++ '\n' :: (indentChars d ++ [']']))
  | .obj [], _ => ['{', '}']
  | .obj (f :: fs), d =>
      '{' :: '\n' :: (printFields (f :: fs) (d + 1) ++ '\n' :: (indentChars d ++ ['}']))

/-- Element lines of a non-empty array: each element indented at depth `d`,
separated by `,\n`. -/
def printElems : List Json → Nat → List Char
  | [], _ => []
  | [x], d => indentChars d ++ printValue x d
  | x :: y :: xs, d =>
      indentChars d ++ (printValue x d ++ ',' :: '\n' :: printElems (y :: xs) d)

/-- Field lines of a non-empty object: each `"key": value` indented at depth
`d`, separated by `,\n`. -/
def printFields : List (String × Json) → Nat → List Char
  | [], _ => []
  | [(k, v)], d => indentChars d ++ (quoteChars k.data ++ ':' :: ' ' :: printValue v d)
  | (k, v) :: g :: fs, d =>
      indentChars d ++
        (quoteChars k.data ++ ':' :: ' ' :: printValue v d ++ ',' :: '\n' :: printFields (g :: fs) d)

end

/-- Embedding of `JSON.stringify(v, null, 2)`. -/
def jsonStringify (v : Json) : String := String.mk (printValue v 0)

/-- JSON insignificant whitespace: space, line feed, tab, carriage return. -/
def isWsChar (c : Char) : Bool :=
  c.toNat = 32 || c.toNat = 10 || c.toNat = 9 || c.toNat = 13

/-- Drops leading JSON whitespace. -/
def skipWs : List Char → List Char
  | [] => []
  | c :: rest => if isWsChar c then skipWs rest else c :: rest

/-- ASCII decimal digit test. -/
def isDigitC (c : Char) : Bool := 48 ≤ c.toNat && c.toNat ≤ 57

/-- Numeric value of an ASCII decimal digit. -/
def digitVal (c : Char) : Nat := c.toNat - 48

/-- Parses a non-empty maximal run of decimal digits. -/
def parseDigits (cs : List Char) : Option (Nat × List Char) :=
  let ds := cs.takeWhile isDigitC
  if ds.isEmpty then none
  else some (ds.foldl (fun acc c => acc * 10 + digitVal c) 0, cs.dropWhile isDigitC)

/-- Parses an integer numeral whose first character `c` has already been
taken off the input `r`. -/
def parseNumberFrom (c : Char) (r : List Char) : Option (Int × List Char) :=
  if c = '-' then
    match parseDigits r with
    | some (n, rest) => some (-(n : Int), rest)
    | none => none
  else if isDigitC c then
    match parseDigits (c :: r) with
    | some (n, rest) => some ((n : Int), rest)
    | none => none
  else none

/-- Value of one hexadecimal digit, upper or lower case. -/
def parseHexDigit (c : Char) : Option Nat :=
  if 48 ≤ c.toNat ∧ c.toNat ≤ 57 then some (c.toNat - 48)
  else if 97 ≤ c.toNat ∧ c.toNat ≤ 102 then some (c.toNat - 87)
  else if 65 ≤ c.toNat ∧ c.toNat ≤ 70 then some (c.toNat - 55)
  else none

/-- Prepends a parsed character to the content component of a string-body
parse. -/
def mapConsChar (c : Char) :
    Option (List Char × List Char) → Option (List Char × List Char)
  | some (s, r) => some (c :: s, r)
  | none => none

/-- Parses the body of a JSON string literal after the opening quote,
returning the unescaped content and the input after the closing quote. Raw
control characters are rejected, as `JSON.parse` rejects them. -/
def parseStringBody : List Char → Option (List Char × List Char)
  | [] => none
  | c :: rest =>
    if c = '"' then some ([], rest)
    else if c = '\\' then
      match rest with
      | [] => none
      | e :: rest2 =>
        if e = '"' then mapConsChar '"' (parseStringBody rest2)
        else if e = '\\' then mapConsChar '\\' (parseStringBody rest2)
        else if e = '/' then mapConsChar '/' (parseStringBody rest2)
        else if e = 'b' then mapConsChar '\x08' (parseStringBody rest2)
        else if e = 'f' then mapConsChar '\x0c' (parseStringBody rest2)
        else if e = 'n' then mapConsChar '\n' (parseStringBody rest2)
        else if e = 'r' then mapConsChar '\r' (parseStringBody rest2)
        else if e = 't' then mapConsChar '\t' (parseStringBody rest2)
        else if e = 'u' then
          match rest2 with
          | h1 :: h2 :: h3 :: h4 :: rest3 =>
            match parseHexDigit h1, parseHexDigit h2, parseHexDigit h3, parseHexDigit h4 with
            | some a, some b, some c2, some d2 =>
                mapConsChar (Char.ofNat (((a * 16 + b) * 16 + c2) * 16 + d2))
                  (parseStringBody rest3)
            | _, _, _, _ => none
          | _ => none
        else none
    else if c.toNat < 32 then none
    else mapConsChar c (parseStringBody rest)

/-- Consumes an expected literal character sequence. -/
def expectChars : List Char → List Char → Option (List Char)
  | [], cs => some cs
  | _ :: _, [] => none
  | e :: es, c :: cs => if c = e then expectChars es cs else none

mutual

/-- Recursive-descent JSON value parser with a recursion-depth fuel. -/
def parseValue : Nat → List Char → Option (Json × List Char)
  | 0, _ => none
  | fuel + 1, cs =>
    match skipWs cs with
    | [] => none
    | c :: r =>
      if c = 'n' then
        match expectChars ['u', 'l', 'l'] r with
        | some r' => some (.null, r')
        | none => none
      else if c = 't' then
        match expectChars ['r', 'u', 'e'] r with
        | some r' => some (.bool true, r')
        | none => none
      else if c = 'f' then
        match expectChars ['a', 'l', 's', 'e'] r with
        | some r' => some (.bool false, r')
        | none => none
      else if c = '"' then
        match parseStringBody r with
        | some (s, r') => some (.str (String.mk s), r')
        | none => none
      else if c = '{' then
        match skipWs r with
        | [] => none
        | c1 :: r1 =>
          if c1 = '}' then some (.obj [], r1)
          else
            match parseFields fuel r with
            | some (fields, r') => some (.obj fields, r')
            | none => none
      else if c = '[' then
        match skipWs r with
        | [] => none
        | c1 :: r1 =>
          if c1 = ']' then some (.arr [], r1)
          else
            match parseElems fuel r with
            | some (vs, r') => some (.arr vs, r')
            | none => none
      else
        match parseNumberFrom c r with
        | some (n, r') => some (.num n, r')
        | none => none

/-- Parses the elements of a non-empty array after the opening bracket. -/
def parseElems : Nat → List Char → Option (List Json × List Char)
  | 0, _ => none
  | fuel + 1, cs =>
    match parseValue fuel cs with
    | none => none
    | some (v, rest) =>
      match skipWs rest with
      | [] => none
      | c :: r =>
        if c = ',' then
          match parseElems fuel r with
          | some (vs, r') => some (v :: vs, r')
          | none => none
        else if c = ']' then some ([v], r)
        else none

/-- Parses the fields of a non-empty object after the opening brace. -/
def parseFields : Nat → List Char → Option (List (String × Json) × List Char)
  | 0, _ => none
  | fuel + 1, cs =>
    match skipWs cs with
    | [] => none
    | c :: r =>
      if c = '"' then
        match parseStringBody r with
        | none => none
        | some (k, r2) =>
          match skipWs r2 with
          | [] => none
          | c3 :: r3 =>
            if c3 = ':' then
              match parseValue fuel r3 with
              | none => none
              | some (v, r4) =>
                match skipWs r4 with
                | [] => none
                | c5 :: r5 =>
                  if c5 = ',' then
                    match parseFields fuel r5 with
                    | some (fs, r6) => some ((String.mk k, v) :: fs, r6)
                    | none => none
                  else if c5 = '}' then some ([(String.mk k, v)], r5)
                  else none
            else none
      else none

end

/-- Embedding of `JSON.parse` (restricted to integer numerals): parses one
value and accepts only trailing whitespace after it. The fuel is one more
than the input length, which the completeness lemmas show is enough for any
printed value. -/
def jsonParse (s : String) : Option Json :=
  match parseValue (s.data.length + 1) s.data with
  | some (v, rest) => if (skipWs rest).isEmpty then some v else none
  | none => none

/-- The input does not begin with a decimal digit, so a numeral parsed just
before it cannot absorb any of it. -/
def noDigitStart : List Char → Prop
  | [] => True
  | c :: _ => isDigitC c = false

mutual

/-- Recursion-depth fuel sufficient to parse one printed value. -/
def needValue : Json → Nat
  | .arr xs => 1 + needElems xs
  | .obj fs => 1 + needFields fs
  | _ => 1

/-- Recursion-depth fuel sufficient to parse printed array elements. -/
def needElems : List Json → Nat
  | [] => 1
  | x :: xs => 1 + max (needValue x) (needElems xs)

/-- Recursion-depth fuel sufficient to parse printed object fields. -/
def needFields : List (String × Json) → Nat
  | [] => 1
  | (_, v) :: fs => 1 + max (needValue v) (needFields fs)

end

/-! ## Manifest store — `readManifest` / `writeManifest` in `src/drive.js` -/

/-- A filesystem is a partial map from paths to file contents; `none` is a
missing file (the `ENOENT` case). -/
abbrev FileSystem := String → Option String

/-- Failure of `readManifest`: the file exists but `JSON.parse` throws. -/
inductive ManifestError where
  | parseFailure (content : String)

/-- Embedding of `readManifest(manifestPath)`: reads and parses the file,
returning the empty mapping when the file does not exist (`ENOENT`), and
propagating a parse failure. -/
def readManifest (fs : FileSystem) (manifestPath : String) : Except ManifestError Json :=
  match fs manifestPath with
  | none => .ok (Json.obj [])
  | some content =>
    match jsonParse content with
    | some v => .ok v
    | none => .error (.parseFailure content)

/-- Embedding of `writeManifest(obj, manifestPath)`: overwrites the file at
`manifestPath` with `JSON.stringify(obj, null, 2)`. -/
def writeManifest (obj : Json) (manifestPath : String) (fs : FileSystem) : FileSystem :=
  fun q => if q = manifestPath then some (jsonStringify obj) else fs q

/-! ## Micro-step view of `fs.writeFile` for the atomicity property

`writeManifest` calls `fs.writeFile(path, data)` with the default `'w'`
flag. Per the Node.js/POSIX semantics of that flag, the target file is
opened with truncation and the data is then written into it in place, so
between the open and the completion of the write the file holds a proper
prefix of the new data (here: the empty prefix). This two-step trace makes
the intermediate state observable so that atomicity can be stated. -/

/-- One observable filesystem mutation. -/
inductive FsStep where
  | truncate (path : String)
  | writeData (path : String) (data : String)
  | rename (src dst : String)

/-- Effect of one mutation on the filesystem map. -/
def applyFsStep (fs : FileSystem) : FsStep → FileSystem
  | .truncate p => fun q => if q = p then some "" else fs q
  | .writeData p d => fun q => if q = p then some d else fs q
  | .rename a b => fun q => if q = b then fs a else if q = a then none else fs q

/-- Filesystem after a whole step sequence. -/
def applyFsSteps (fs : FileSystem) : List FsStep → FileSystem
  | [] => fs
  | s :: rest => applyFsSteps (applyFsStep fs s) rest

/-- Every filesystem state reached strictly during or at the end of a step
sequence (the state after each step). -/
def fsStatesDuring (fs : FileSystem) : List FsStep → List FileSystem
  | [] => []
  | s :: rest => applyFsStep fs s :: fsStatesDuring (applyFsStep fs s) rest

/-- Steps of `fs.writeFile(path, data)` with the default `'w'` flag:
truncate-on-open, then write the data in place. No temporary file and no
rename is involved. -/
def writeFileSteps (path data : String) : List FsStep :=
  [.truncate path, .writeData path data]

/-- Step trace of `writeManifest(obj, manifestPath)`: a single direct
`fs.writeFile` of the serialized manifest. -/
def writeManifestSteps (obj : Json) (manifestPath : String) : List FsStep :=
  writeFileSteps manifestPath (jsonStringify obj)

/-! ## Push / pull command handlers — `src/cli.js` -/

/-- One manifest entry `{ gdocId, lastSync }`. An entry whose `gdocId` is
the empty string models a falsy `gdocId` (the `fileInfo.gdocId` truthiness
test in the source). -/
structure FileEntry where
  gdocId : String
  lastSync : String
deriving DecidableEq

/-- The manifest document held in `.draftsync.json`, reduced to its `files`
map (its `version` and `config` fields are never consulted or changed by
push/pull and are omitted). -/
structure ManifestDoc where
  files : List (String × FileEntry)
deriving DecidableEq

/-- JavaScript property read `o[k]` on an object used as a string map. -/
def jsLookup {α : Type} : List (String × α) → String → Option α
  | [], _ => none
  | (k, v) :: rest, key => if k = key then some v else jsLookup rest key

/-- JavaScript property write `o[k] = v`: replaces the value in place when
the key exists, otherwise appends the new key. -/
def jsInsert {α : Type} : List (String × α) → String → α → List (String × α)
  | [], key, v => [(key, v)]
  | (k, w) :: rest, key, v =>
      if k = key then (k, v) :: rest else (k, w) :: jsInsert rest key v

/-- Options of `draftsync push <file>`. -/
structure PushOptions where
  dryRun : Bool := false
  refdoc : Option String := none
  folderId : Option String := none
  format : Bool := false

/-- Options of `draftsync pull <file>`. -/
structure PullOptions where
  dryRun : Bool := false

/-- Environment of one `pushCommand` run: the outcome of `loadManifest()`
(`.error` when the manifest file exists but is corrupt, so `JSON.parse`
throws), the outcome of `convertMarkdownToDocx` (`.ok docxPath` or the
thrown error's message), the identifier the `createDoc` stub returns, and
the value of `new Date().toISOString()`. `authenticate()` needs no
environment: it catches all its own errors and resolves with a stub. -/
structure PushEnv where
  manifestLoad : Except String ManifestDoc
  mdConvert : Except String String
  createdId : String
  now : String

/-- Environment of one `pullCommand` run, analogous to `PushEnv`;
`docxConvert` is the outcome of `convertDocxToMarkdown`. -/
structure PullEnv where
  manifestLoad : Except String ManifestDoc
  docxConvert : Except String String
  now : String

/-- Observable outcome of one command handler run: the process exit code,
the `console.error` lines, how many times the Google authentication and the
external conversion tool were invoked, every manifest passed to
`saveManifest`, and the message of an exception that escaped the handler
(an unhandled rejection), if any. -/
structure CmdResult where
  exitCode : Nat := 0
  errors : List String := []
  authCalls : Nat := 0
  toolCalls : Nat := 0
  manifestWrites : List ManifestDoc := []
  uncaught : Option String := none
deriving DecidableEq

/-- Embedding of `pushCommand(filePath, options)` (`src/cli.js` lines
102–164). Dry-run returns before any authentication, conversion or manifest
access. In real mode the handler authenticates, converts, loads the
manifest, and then either reuses an existing truthy `gdocId` (writing
nothing) or creates a new document and saves the manifest with a fresh
entry; every thrown error is caught and printed, after which the handler
returns normally (exit code 0). -/
def pushCommand (filePath : String) (options : PushOptions) (env : PushEnv) : CmdResult :=
  if options.dryRun then
    {}
  else
    match env.mdConvert with
    | .error msg => { errors := ["✗ Error: " ++ msg], authCalls := 1, toolCalls := 1 }
    | .ok _docxPath =>
      match env.manifestLoad with
      | .error msg => { errors := ["✗ Error: " ++ msg], authCalls := 1, toolCalls := 1 }
      | .ok manifest =>
        match jsLookup manifest.files filePath with
        | some info =>
          if info.gdocId ≠ "" then
            { authCalls := 1, toolCalls := 1 }
          else
            { authCalls := 1, toolCalls := 1,
              manifestWrites :=
                [⟨jsInsert manifest.files filePath ⟨env.createdId, env.now⟩⟩] }
        | none =>
          { authCalls := 1, toolCalls := 1,
            manifestWrites :=
              [⟨jsInsert manifest.files filePath ⟨env.createdId, env.now⟩⟩] }

/-- The two `console.error`/hint lines printed when pull finds no linked
document; only the `console.error` line is recorded. -/
def notLinkedMsg (filePath : String) : String :=
  "✗ No Google Doc linked to " ++ filePath

/-- Embedding of `pullCommand(filePath, options)` (`src/cli.js` lines
169–209). `loadManifest` runs outside the `try`, so its failure escapes the
handler (unhandled rejection, non-zero exit). The linked-file check runs
before the dry-run branch and before any authentication or conversion. In
real mode a successful conversion updates the entry's `lastSync` in place
and saves the manifest; a thrown error is caught and printed, after which
the handler returns normally (exit code 0). -/
def pullCommand (filePath : String) (options : PullOptions) (env : PullEnv) : CmdResult :=
  match env.manifestLoad with
  | .error msg => { exitCode := 1, uncaught := some msg }
  | .ok manifest =>
    match jsLookup manifest.files filePath with
    | none => { errors := [notLinkedMsg filePath] }
    | some info =>
      if info.gdocId = "" then { errors := [notLinkedMsg filePath] }
      else if options.dryRun then {}
      else
        match env.docxConvert with
        | .error msg => { errors := ["✗ Error: " ++ msg], authCalls := 1, toolCalls := 1 }
        | .ok _ =>
          { authCalls := 1, toolCalls := 1,
            manifestWrites :=
              [⟨jsInsert manifest.files filePath ⟨info.gdocId, env.now⟩⟩] }

/-! ## Concrete run environments used by individual refutations -/

/-- A manifest whose single entry is already linked (`gdocId` non-empty),
together with a successful conversion: the environment of a successful push
of an already-linked file. -/
def pushLinkedEnv : PushEnv :=
  { manifestLoad := .ok ⟨[("content/ch1.md", ⟨"abc123", "2025-01-01T00:00:00.000Z"⟩)]⟩
    mdConvert := .ok "dist/ch1.docx"
    createdId := "stub_zzz"
    now := "2025-06-01T00:00:00.000Z" }

/-- An empty manifest and a conversion that would succeed: the environment
of a pull of a file that was never linked. -/
def pullUnlinkedEnv : PullEnv :=
  { manifestLoad := .ok ⟨[]⟩
    docxConvert := .ok "content/x.md"
    now := "2025-06-01T00:00:00.000Z" }

end DraftSync

namespace DraftSync

/-! ## Substring helpers -/

/-- A string occurs in the concatenation that sandwiches it. -/
theorem strContains_parts (pre mid suf : String) : strContains mid (pre ++ mid ++ suf) :=
  ⟨pre.data, suf.data, by simp [strContains, String.data_append]⟩

/-- A string occurs at the end of a concatenation. -/
theorem strContains_right (a b : String) : strContains b (a ++ b) :=
  ⟨a.data, [], by simp [strContains, String.data_append]⟩

/-- The forward direction label occurs in the forward failure message. -/
theorem strContains_mdDocx (t : String) :
    strContains "md → docx" ("pandoc failed (md → docx) with status " ++ t) := by
  refine ⟨"pandoc failed (".data, (") with status " ++ t).data, ?_⟩
  have h : "pandoc failed (md → docx) with status ".data =
      "pandoc failed (".data ++ ("md → docx".data ++ ") with status ".data) := by decide
  simp [String.data_append, h]

/-- The reverse direction label occurs in the reverse failure message. -/
theorem strContains_docxMd (t : String) :
    strContains "docx → md" ("pandoc failed (docx → md) with status " ++ t) := by
  refine ⟨"pandoc failed (".data, (") with status " ++ t).data, ?_⟩
  have h : "pandoc failed (docx → md) with status ".data =
      "pandoc failed (".data ++ ("docx → md".data ++ ") with status ".data) := by decide
  simp [String.data_append, h]

/-! ## Claim C7 — pandoc argument construction -/

/-- Claim C7, refuted as stated: with the non-null (but empty, hence falsy)
style reference `""`, `buildMdToDocxArgs` does not append the
`--reference-doc` flag, although the claim requires the flag exactly when
the reference is non-null. -/
theorem C7_counterexample :
    buildMdToDocxArgs "a.md" "a.docx" (some "") ≠
      ["a.md", "-o", "a.docx", "--reference-doc", ""] := by decide

/-- Claim C7 as amended: `buildMdToDocxArgs` returns `[src, "-o", dst]` and
appends `["--reference-doc", r]` exactly when the style reference is
non-null and non-empty (an omitted, null or empty reference emits no flag),
and `buildDocxToMdArgs` always returns `[src, "-o", dst]`. -/
theorem C7_buildArgs_amended (src dst r : String) (hr : r ≠ "") :
    buildMdToDocxArgs src dst none = [src, "-o", dst]
    ∧ buildMdToDocxArgs src dst (some "") = [src, "-o", dst]
    ∧ buildMdToDocxArgs src dst (some r) = [src, "-o", dst, "--reference-doc", r]
    ∧ buildDocxToMdArgs src dst = [src, "-o", dst] := by
  refine ⟨rfl, rfl, ?_, rfl⟩
  simp [buildMdToDocxArgs, hr]

/-- Witness for `C7_buildArgs_amended` at the spec's own example paths. -/
theorem C7_witness :
    buildMdToDocxArgs "a.md" "a.docx" (some "ref.docx") =
      ["a.md", "-o", "a.docx", "--reference-doc", "ref.docx"]
    ∧ buildMdToDocxArgs "a.md" "a.docx" none = ["a.md", "-o", "a.docx"] :=
  ⟨(C7_buildArgs_amended "a.md" "a.docx" "ref.docx" (by decide)).2.2.1,
   (C7_buildArgs_amended "a.md" "a.docx" "ref.docx" (by decide)).1⟩

/-! ## Claim C8 — conversion failure surfacing and exit-code normalization -/

/-- Claim C8: a non-zero pandoc exit makes `mdToDocx` fail with a message
containing the direction label `md → docx` and the exact numeric code
(`docxToMd` symmetrically with `docx → md`); exit 0 returns normally; and a
missing exit status is normalized to `1` and treated as failure. -/
theorem C8_conversion_errors (mdPath outDocx docxPath outMd : String)
    (refdoc : Option String) (res : SpawnResult) (c : Int) :
    (res.status = some c → c ≠ 0 →
      mdToDocx mdPath outDocx refdoc res =
        .error ("pandoc failed (md → docx) with status " ++ toString c)
      ∧ strContains "md → docx" ("pandoc failed (md → docx) with status " ++ toString c)
      ∧ strContains (toString c) ("pandoc failed (md → docx) with status " ++ toString c)
      ∧ docxToMd docxPath outMd res =
        .error ("pandoc failed (docx → md) with status " ++ toString c)
      ∧ strContains "docx → md" ("pandoc failed (docx → md) with status " ++ toString c)
      ∧ strContains (toString c) ("pandoc failed (docx → md) with status " ++ toString c))
    ∧ (res.status = some 0 →
      mdToDocx mdPath outDocx refdoc res = .ok ()
      ∧ docxToMd docxPath outMd res = .ok ())
    ∧ (res.status = none →
      (runPandoc (buildMdToDocxArgs mdPath outDocx refdoc) res).status = 1
      ∧ mdToDocx mdPath outDocx refdoc res =
          .error ("pandoc failed (md → docx) with status " ++ toString (1 : Int))
      ∧ docxToMd docxPath outMd res =
          .error ("pandoc failed (docx → md) with status " ++ toString (1 : Int))) := by
  refine ⟨fun hs hc => ?_, fun hs => ?_, fun hs => ?_⟩
  · refine ⟨?_, strContains_mdDocx _, strContains_right _ _, ?_,
      strContains_docxMd _, strContains_right _ _⟩
    · simp [mdToDocx, runPandoc, hs, hc]
    · simp [docxToMd, runPandoc, hs, hc]
  · constructor
    · simp [mdToDocx, runPandoc, hs]
    · simp [docxToMd, runPandoc, hs]
  · refine ⟨?_, ?_, ?_⟩
    · simp [runPandoc, hs]
    · simp [mdToDocx, runPandoc, hs]
    · simp [docxToMd, runPandoc, hs]

/-- Witness for `C8_conversion_errors`: the failing, succeeding and
status-less spawn outcomes at concrete inputs. -/
theorem C8_witness :
    mdToDocx "a.md" "a.docx" none ⟨some 42, none, none⟩ =
      .error ("pandoc failed (md → docx) with status " ++ toString (42 : Int))
    ∧ mdToDocx "a.md" "a.docx" none ⟨some 0, none, none⟩ = .ok ()
    ∧ docxToMd "a.docx" "a.md" ⟨none, none, none⟩ =
      .error ("pandoc failed (docx → md) with status " ++ toString (1 : Int)) :=
  ⟨((C8_conversion_errors "a.md" "a.docx" "a.docx" "a.md" none ⟨some 42, none, none⟩ 42).1
      rfl (by decide)).1,
   ((C8_conversion_errors "a.md" "a.docx" "a.docx" "a.md" none ⟨some 0, none, none⟩ 42).2.1
      rfl).1,
   ((C8_conversion_errors "a.md" "a.docx" "a.docx" "a.md" none ⟨none, none, none⟩ 42).2.2
      rfl).2.2⟩

/-! ## Claim C10 — house style request construction -/

/-- Claim C10, refuted as stated: with the provided (but empty, hence
falsy) header text `""`, no `createHeader` request is emitted, although the
claim requires one exactly when `headerText` is provided. -/
theorem C10_counterexample :
    GDocsRequest.createHeader "DEFAULT" 1 ∉
      buildHouseStyleRequests { headerText := some "" } := by decide

/-- Claim C10 as amended: the margins request (all four margins at
`marginsInch × 72` points) always comes first; the line-spacing-200 request
over `[1, -1)` is present exactly when `doubleSpacing` is true; the
`createHeader` request of type `DEFAULT` is present exactly when
`headerText` is provided and non-empty; the result has between 1 and 3
requests; the all-defaults call yields the 72-point margins request
followed by the double-spacing request; and in every case the output is
exactly the ordered sequence margins first, then the spacing request when
`doubleSpacing` is true, then the header request when `headerText` is
provided and non-empty (the four option combinations are enumerated
exhaustively). -/
theorem C10_houseStyle_amended (opts : HouseStyleOptions) :
    (buildHouseStyleRequests opts).head? = some (GDocsRequest.updateDocumentStyle
      { marginTop := ⟨opts.marginsInch * 72, "PT"⟩
        marginBottom := ⟨opts.marginsInch * 72, "PT"⟩
        marginLeft := ⟨opts.marginsInch * 72, "PT"⟩
        marginRight := ⟨opts.marginsInch * 72, "PT"⟩ }
      "marginTop,marginBottom,marginLeft,marginRight")
    ∧ (GDocsRequest.updateParagraphStyle ⟨1, -1⟩ 200 "lineSpacing" ∈ buildHouseStyleRequests opts
        ↔ opts.doubleSpacing = true)
    ∧ (GDocsRequest.createHeader "DEFAULT" 1 ∈ buildHouseStyleRequests opts
        ↔ ∃ h, opts.headerText = some h ∧ h ≠ "")
    ∧ 1 ≤ (buildHouseStyleRequests opts).length
    ∧ (buildHouseStyleRequests opts).length ≤ 3
    ∧ buildHouseStyleRequests {} =
      [GDocsRequest.updateDocumentStyle
        { marginTop := ⟨72, "PT"⟩, marginBottom := ⟨72, "PT"⟩
          marginLeft := ⟨72, "PT"⟩, marginRight := ⟨72, "PT"⟩ }
        "marginTop,marginBottom,marginLeft,marginRight",
       GDocsRequest.updateParagraphStyle ⟨1, -1⟩ 200 "lineSpacing"]
    ∧ (∀ h, opts.doubleSpacing = true → opts.headerText = some h → h ≠ "" →
      buildHouseStyleRequests opts =
        [GDocsRequest.updateDocumentStyle
          { marginTop := ⟨opts.marginsInch * 72, "PT"⟩
            marginBottom := ⟨opts.marginsInch * 72, "PT"⟩
            marginLeft := ⟨opts.marginsInch * 72, "PT"⟩
            marginRight := ⟨opts.marginsInch * 72, "PT"⟩ }
          "marginTop,marginBottom,marginLeft,marginRight",
         GDocsRequest.updateParagraphStyle ⟨1, -1⟩ 200 "lineSpacing",
         GDocsRequest.createHeader "DEFAULT" 1])
    ∧ (opts.doubleSpacing = true → (opts.headerText = none ∨ opts.headerText = some "") →
      buildHouseStyleRequests opts =
        [GDocsRequest.updateDocumentStyle
          { marginTop := ⟨opts.marginsInch * 72, "PT"⟩
            marginBottom := ⟨opts.marginsInch * 72, "PT"⟩
            marginLeft := ⟨opts.marginsInch * 72, "PT"⟩
            marginRight := ⟨opts.marginsInch * 72, "PT"⟩ }
          "marginTop,marginBottom,marginLeft,marginRight",
         GDocsRequest.updateParagraphStyle ⟨1, -1⟩ 200 "lineSpacing"])
    ∧ (∀ h, opts.doubleSpacing = false → opts.headerText = some h → h ≠ "" →
      buildHouseStyleRequests opts =
        [GDocsRequest.updateDocumentStyle
          { marginTop := ⟨opts.marginsInch * 72, "PT"⟩
            marginBottom := ⟨opts.marginsInch * 72, "PT"⟩
            marginLeft := ⟨opts.marginsInch * 72, "PT"⟩
            marginRight := ⟨opts.marginsInch * 72, "PT"⟩ }
          "marginTop,marginBottom,marginLeft,marginRight",
         GDocsRequest.createHeader "DEFAULT" 1])
    ∧ (opts.doubleSpacing = false → (opts.headerText = none ∨ opts.headerText = some "") →
      buildHouseStyleRequests opts =
        [GDocsRequest.updateDocumentStyle
          { marginTop := ⟨opts.marginsInch * 72, "PT"⟩
            marginBottom := ⟨opts.marginsInch * 72, "PT"⟩
            marginLeft := ⟨opts.marginsInch * 72, "PT"⟩
            marginRight := ⟨opts.marginsInch * 72, "PT"⟩ }
          "marginTop,marginBottom,marginLeft,marginRight"]) := by
  refine ⟨rfl, ?_, ?_, ?_, ?_, by norm_num [buildHouseStyleRequests], ?_, ?_, ?_, ?_⟩
  · cases hd : opts.doubleSpacing <;> rcases hh : opts.headerText with _ | h <;>
      simp [buildHouseStyleRequests, hd, hh]
  · cases hd : opts.doubleSpacing <;> rcases hh : opts.headerText with _ | h <;>
      simp [buildHouseStyleRequests, hd, hh]
  · cases hd : opts.doubleSpacing <;> rcases hh : opts.headerText with _ | h <;>
      simp [buildHouseStyleRequests, hd, hh]
  · cases hd : opts.doubleSpacing <;> rcases hh : opts.headerText with _ | h <;>
      simp [buildHouseStyleRequests, hd, hh] <;>
      first
      | rfl
      | (by_cases hhe : h = "" <;> simp [hhe])
  · intro h hd hh hne
    simp [buildHouseStyleRequests, hd, hh, hne]
  · intro hd hcase
    rcases hcase with hh | hh <;> simp [buildHouseStyleRequests, hd, hh]
  · intro h hd hh hne
    simp [buildHouseStyleRequests, hd, hh, hne]
  · intro hd hcase
    rcases hcase with hh | hh <;> simp [buildHouseStyleRequests, hd, hh]

/-- Witness for `C10_houseStyle_amended`: the full three-request sequence at
2-inch margins with double spacing and a non-empty header, and the
margins-only sequence with double spacing off and an empty (falsy) header
text. -/
theorem C10_witness :
    buildHouseStyleRequests
        { marginsInch := 2, doubleSpacing := true, headerText := some "Surname / Title" } =
      [GDocsRequest.updateDocumentStyle
        { marginTop := ⟨2 * 72, "PT"⟩, marginBottom := ⟨2 * 72, "PT"⟩
          marginLeft := ⟨2 * 72, "PT"⟩, marginRight := ⟨2 * 72, "PT"⟩ }
        "marginTop,marginBottom,marginLeft,marginRight",
       GDocsRequest.updateParagraphStyle ⟨1, -1⟩ 200 "lineSpacing",
       GDocsRequest.createHeader "DEFAULT" 1]
    ∧ buildHouseStyleRequests { doubleSpacing := false, headerText := some "" } =
      [GDocsRequest.updateDocumentStyle
        { marginTop := ⟨1 * 72, "PT"⟩, marginBottom := ⟨1 * 72, "PT"⟩
          marginLeft := ⟨1 * 72, "PT"⟩, marginRight := ⟨1 * 72, "PT"⟩ }
        "marginTop,marginBottom,marginLeft,marginRight"] :=
  ⟨(C10_houseStyle_amended
      { marginsInch := 2, doubleSpacing := true,
        headerText := some "Surname / Title" }).2.2.2.2.2.2.1
      "Surname / Title" rfl rfl (by decide),
   (C10_houseStyle_amended
      { doubleSpacing := false, headerText := some "" }).2.2.2.2.2.2.2.2.2
      rfl (Or.inr rfl)⟩

/-! ## Claim C9 — missing manifest file is the empty mapping -/

/-- Claim C9: on a path that does not exist, `readManifest` returns the
empty mapping, and (being a total function into `Except`) never throws. -/
theorem C9_readManifest_missing (fs : FileSystem) (p : String) (h : fs p = none) :
    readManifest fs p = .ok (Json.obj []) := by
  simp [readManifest, h]

/-- Witness for `C9_readManifest_missing` on the empty filesystem at the
default manifest path. -/
theorem C9_witness :
    readManifest (fun _ => none) ".draftsync.json" = .ok (Json.obj []) :=
  C9_readManifest_missing (fun _ => none) ".draftsync.json" rfl

/-! ## Claim C5 — writeManifest is not atomic -/

/-- Claim C5, refuted: during `writeManifest` of the empty mapping over a
file holding `old`, the observable file contents pass through `some ""`,
which is neither the prior content nor the new serialization, so the prior
content is lost before the write completes (and would stay lost if the
write failed there). -/
theorem C5_counterexample :
    ((fsStatesDuring (fun q => if q = "m" then some "old" else none)
        (writeManifestSteps (Json.obj []) "m")).map (fun st => st "m")) =
      [some "", some (jsonStringify (Json.obj []))]
    ∧ (some "" : Option String) ≠ some "old"
    ∧ some "" ≠ some (jsonStringify (Json.obj [])) := by
  refine ⟨rfl, by decide, by decide⟩

/-- Claim C5 as amended: `writeManifest` overwrites the target with one
direct truncate-then-write of the serialized manifest — no temporary file
and no rename — so the final state holds exactly the new serialization, but
the intermediate state already holds the empty file in place of the prior
content. -/
theorem C5_writeManifest_amended (obj : Json) (p : String) (fs0 : FileSystem) :
    writeManifestSteps obj p = [FsStep.truncate p, FsStep.writeData p (jsonStringify obj)]
    ∧ applyFsSteps fs0 (writeManifestSteps obj p) p = some (jsonStringify obj)
    ∧ (fsStatesDuring fs0 (writeManifestSteps obj p)).map (fun st => st p) =
        [some "", some (jsonStringify obj)] := by
  refine ⟨rfl, ?_, ?_⟩ <;>
    simp [writeManifestSteps, writeFileSteps, applyFsSteps, applyFsStep, fsStatesDuring]

/-! ## Claim C1 — timestamp update on push and pull -/

/-- Claim C1, refuted as stated: a push of a file that already has a
`gdocId` in the manifest succeeds (no error output, exit code 0) yet calls
`saveManifest` not at all, so the entry's `lastSync` timestamp is not
updated and the manifest is not persisted. -/
theorem C1_counterexample :
    (pushCommand "content/ch1.md" {} pushLinkedEnv).errors = []
    ∧ (pushCommand "content/ch1.md" {} pushLinkedEnv).exitCode = 0
    ∧ (pushCommand "content/ch1.md" {} pushLinkedEnv).manifestWrites = [] := by
  refine ⟨rfl, rfl, rfl⟩

/-- Claim C1 as amended: a successful real-mode pull persists the manifest
with the entry's `lastSync` set to the current time, and a successful
real-mode push does so only when it creates a new link (no entry with a
truthy `gdocId` existed); a push of an already-linked file succeeds without
updating the timestamp or persisting the manifest. -/
theorem C1_sync_timestamps_amended (fp docx : String) (pushOpts : PushOptions)
    (pullOpts : PullOptions) (penv : PushEnv) (qenv : PullEnv) (m mq : ManifestDoc)
    (info infoq : FileEntry) :
    (pushOpts.dryRun = false → penv.mdConvert = .ok docx → penv.manifestLoad = .ok m →
      jsLookup m.files fp = some info → info.gdocId ≠ "" →
      (pushCommand fp pushOpts penv).manifestWrites = []
      ∧ (pushCommand fp pushOpts penv).errors = [])
    ∧ (pushOpts.dryRun = false → penv.mdConvert = .ok docx → penv.manifestLoad = .ok m →
      jsLookup m.files fp = none →
      (pushCommand fp pushOpts penv).manifestWrites =
        [⟨jsInsert m.files fp ⟨penv.createdId, penv.now⟩⟩]
      ∧ (pushCommand fp pushOpts penv).errors = [])
    ∧ (pullOpts.dryRun = false → qenv.manifestLoad = .ok mq →
      jsLookup mq.files fp = some infoq → infoq.gdocId ≠ "" → qenv.docxConvert = .ok docx →
      (pullCommand fp pullOpts qenv).manifestWrites =
        [⟨jsInsert mq.files fp ⟨infoq.gdocId, qenv.now⟩⟩]
      ∧ (pullCommand fp pullOpts qenv).errors = []) := by
  refine ⟨fun hdry hconv hload hfind htruthy => ?_,
    fun hdry hconv hload hfind => ?_,
    fun hdry hload hfind htruthy hconv => ?_⟩
  · simp [pushCommand, hdry, hconv, hload, hfind, htruthy]
  · simp [pushCommand, hdry, hconv, hload, hfind]
  · simp [pullCommand, hdry, hconv, hload, hfind, htruthy]

/-- Witness for `C1_sync_timestamps_amended`: the three modes at concrete
manifests. -/
theorem C1_witness :
    ((pushCommand "a.md" {}
        { manifestLoad := .ok ⟨[("a.md", ⟨"g0", "t0"⟩)]⟩, mdConvert := .ok "a.docx",
          createdId := "gNew", now := "t1" }).manifestWrites = []
      ∧ (pushCommand "a.md" {}
        { manifestLoad := .ok ⟨[("a.md", ⟨"g0", "t0"⟩)]⟩, mdConvert := .ok "a.docx",
          createdId := "gNew", now := "t1" }).errors = [])
    ∧ ((pushCommand "b.md" {}
        { manifestLoad := .ok ⟨[]⟩, mdConvert := .ok "b.docx",
          createdId := "gNew", now := "t1" }).manifestWrites =
          [⟨[("b.md", ⟨"gNew", "t1"⟩)]⟩]
      ∧ (pushCommand "b.md" {}
        { manifestLoad := .ok ⟨[]⟩, mdConvert := .ok "b.docx",
          createdId := "gNew", now := "t1" }).errors = [])
    ∧ ((pullCommand "a.md" {}
        { manifestLoad := .ok ⟨[("a.md", ⟨"g0", "t0"⟩)]⟩, docxConvert := .ok "a.md",
          now := "t2" }).manifestWrites = [⟨[("a.md", ⟨"g0", "t2"⟩)]⟩]
      ∧ (pullCommand "a.md" {}
        { manifestLoad := .ok ⟨[("a.md", ⟨"g0", "t0"⟩)]⟩, docxConvert := .ok "a.md",
          now := "t2" }).errors = []) :=
  ⟨(C1_sync_timestamps_amended "a.md" "a.docx" {} {}
      { manifestLoad := .ok ⟨[("a.md", ⟨"g0", "t0"⟩)]⟩, mdConvert := .ok "a.docx",
        createdId := "gNew", now := "t1" }
      { manifestLoad := .ok ⟨[]⟩, docxConvert := .ok "a.md", now := "t2" }
      ⟨[("a.md", ⟨"g0", "t0"⟩)]⟩ ⟨[]⟩ ⟨"g0", "t0"⟩ ⟨"g0", "t0"⟩).1
      rfl rfl rfl (by decide) (by decide),
   (C1_sync_timestamps_amended "b.md" "b.docx" {} {}
      { manifestLoad := .ok ⟨[]⟩, mdConvert := .ok "b.docx",
        createdId := "gNew", now := "t1" }
      { manifestLoad := .ok ⟨[]⟩, docxConvert := .ok "b.md", now := "t2" }
      ⟨[]⟩ ⟨[]⟩ ⟨"", ""⟩ ⟨"", ""⟩).2.1
      rfl rfl rfl (by decide),
   (C1_sync_timestamps_amended "a.md" "a.md" {} {}
      { manifestLoad := .ok ⟨[]⟩, mdConvert := .ok "a.md",
        createdId := "gNew", now := "t1" }
      { manifestLoad := .ok ⟨[("a.md", ⟨"g0", "t0"⟩)]⟩, docxConvert := .ok "a.md",
        now := "t2" }
      ⟨[]⟩ ⟨[("a.md", ⟨"g0", "t0"⟩)]⟩ ⟨"g0", "t0"⟩ ⟨"g0", "t0"⟩).2.2
      rfl rfl (by decide) (by decide) rfl⟩

/-! ## JSON printer/parser agreement, part 1: characters and strings -/

/-- Rebuilding a string from its character list is the identity. -/
theorem stringMk_data (s : String) : String.mk s.data = s := rfl

/-- Whitespace skipping passes a non-whitespace head through. -/
theorem skipWs_cons_not_ws (c : Char) (r : List Char) (h : isWsChar c = false) :
    skipWs (c :: r) = c :: r := by simp [skipWs, h]

/-- Whitespace skipping drops a whitespace head. -/
theorem skipWs_cons_ws (c : Char) (r : List Char) (h : isWsChar c = true) :
    skipWs (c :: r) = skipWs r := by simp [skipWs, h]

/-- Whitespace skipping drops any all-whitespace prefix. -/
theorem skipWs_append_ws (l cs : List Char) (h : ∀ c ∈ l, isWsChar c = true) :
    skipWs (l ++ cs) = skipWs cs := by
  induction l with
  | nil => rfl
  | cons c l ih =>
    rw [List.cons_append, skipWs_cons_ws c _ (h c (List.mem_cons_self c l))]
    exact ih fun x hx => h x (List.mem_cons_of_mem c hx)

/-- Whitespace skipping drops an indentation prefix. -/
theorem skipWs_indent (d : Nat) (cs : List Char) :
    skipWs (indentChars d ++ cs) = skipWs cs :=
  skipWs_append_ws _ _ fun c hc => by
    rw [List.eq_of_mem_replicate hc]; rfl

/-- A literal expectation consumes exactly itself. -/
theorem expectChars_self (es rest : List Char) :
    expectChars es (es ++ rest) = some rest := by
  induction es with
  | nil => rfl
  | cons e es ih => simp [expectChars, ih]

/-- The hexadecimal digit printer and parser agree below 16. -/
theorem parseHexDigit_hexDigitChar (n : Nat) (h : n < 16) :
    parseHexDigit (hexDigitChar n) = some n := by
  interval_cases n <;> decide

/-- Unescaping inverts escaping: parsing a string body over the escaped
characters followed by the closing quote returns the original characters
and the input after the quote. -/
theorem parseStringBody_escape (s rest : List Char) :
    parseStringBody (escapeList s ++ '"' :: rest) = some (s, rest) := by
  induction s with
  | nil =>
    rw [escapeList, List.nil_append, parseStringBody.eq_def]
    simp
  | cons c s ih =>
    rw [escapeList, List.append_assoc]
    by_cases h1 : c = '"'
    · subst h1
      rw [show escapeChar '"' = ['\\', '"'] from rfl, List.cons_append, List.cons_append,
        List.nil_append, parseStringBody.eq_def]
      simp [mapConsChar, ih]
    by_cases h2 : c = '\\'
    · subst h2
      rw [show escapeChar '\\' = ['\\', '\\'] from rfl, List.cons_append, List.cons_append,
        List.nil_append, parseStringBody.eq_def]
      simp [mapConsChar, ih]
    by_cases h3 : c = '\x08'
    · subst h3
      rw [show escapeChar '\x08' = ['\\', 'b'] from rfl, List.cons_append, List.cons_append,
        List.nil_append, parseStringBody.eq_def]
      simp [mapConsChar, ih]
    by_cases h4 : c = '\x0c'
    · subst h4
      rw [show escapeChar '\x0c' = ['\\', 'f'] from rfl, List.cons_append, List.cons_append,
        List.nil_append, parseStringBody.eq_def]
      simp [mapConsChar, ih]
    by_cases h5 : c = '\n'
    · subst h5
      rw [show escapeChar '\n' = ['\\', 'n'] from rfl, List.cons_append, List.cons_append,
        List.nil_append, parseStringBody.eq_def]
      simp [mapConsChar, ih]
    by_cases h6 : c = '\r'
    · subst h6
      rw [show escapeChar '\r' = ['\\', 'r'] from rfl, List.cons_append, List.cons_append,
        List.nil_append, parseStringBody.eq_def]
      simp [mapConsChar, ih]
    by_cases h7 : c = '\t'
    · subst h7
      rw [show escapeChar '\t' = ['\\', 't'] from rfl, List.cons_append, List.cons_append,
        List.nil_append, parseStringBody.eq_def]
      simp [mapConsChar, ih]
    by_cases h8 : c.toNat < 32
    · have hdiv : c.toNat / 16 < 16 := by omega
      have hmod : c.toNat % 16 < 16 := by omega
      have h0 : parseHexDigit '0' = some 0 := by decide
      have hesc : escapeChar c =
          ['\\', 'u', '0', '0', hexDigitChar (c.toNat / 16), hexDigitChar (c.toNat % 16)] := by
        rw [escapeChar, if_neg h1, if_neg h2, if_neg h3, if_neg h4, if_neg h5, if_neg h6,
          if_neg h7, if_pos h8]
      rw [hesc]
      simp only [List.cons_append, List.nil_append]
      rw [parseStringBody.eq_def]
      simp only [h0, parseHexDigit_hexDigitChar _ hdiv, parseHexDigit_hexDigitChar _ hmod]
      have hval : ((0 * 16 + 0) * 16 + c.toNat / 16) * 16 + c.toNat % 16 = c.toNat := by
        omega
      simp only [hval, Char.ofNat_toNat]
      simp [mapConsChar, ih]
    · have hesc : escapeChar c = [c] := by
        rw [escapeChar, if_neg h1, if_neg h2, if_neg h3, if_neg h4, if_neg h5, if_neg h6,
          if_neg h7, if_neg h8]
      rw [hesc, List.cons_append, List.nil_append, parseStringBody.eq_def]
      simp [h1, h2, h8, mapConsChar, ih]

/-! ## JSON printer/parser agreement, part 2: numerals -/

/-- A digit character below 10 is a digit and carries its value. -/
theorem digitChar_spec (n : Nat) (h : n < 10) :
    isDigitC (digitChar n) = true ∧ digitVal (digitChar n) = n := by
  interval_cases n <;> exact ⟨by decide, by decide⟩

/-- Every character of a printed natural numeral is a digit. -/
theorem natDigits_all (n : Nat) : ∀ c ∈ natDigits n, isDigitC c = true := by
  induction n using Nat.strong_induction_on with
  | _ n ih =>
    by_cases h : n < 10
    · rw [natDigits, if_pos h]
      intro c hc
      rw [List.mem_singleton] at hc
      subst hc
      exact (digitChar_spec n h).1
    · rw [natDigits, if_neg h]
      intro c hc
      rcases List.mem_append.mp hc with hc | hc
      · exact ih (n / 10) (Nat.div_lt_self (by omega) (by omega)) c hc
      · rw [List.mem_singleton] at hc
        subst hc
        exact (digitChar_spec (n % 10) (Nat.mod_lt _ (by omega))).1

/-- A printed natural numeral is non-empty and starts with a digit. -/
theorem natDigits_head (n : Nat) :
    ∃ c t, natDigits n = c :: t ∧ isDigitC c = true := by
  induction n using Nat.strong_induction_on with
  | _ n ih =>
    by_cases h : n < 10
    · exact ⟨digitChar n, [], by rw [natDigits, if_pos h], (digitChar_spec n h).1⟩
    · obtain ⟨c, t, hct, hd⟩ := ih (n / 10) (Nat.div_lt_self (by omega) (by omega))
      exact ⟨c, t ++ [digitChar (n % 10)],
        by rw [natDigits, if_neg h, hct, List.cons_append], hd⟩

/-- Folding the digit-accumulation step over a printed numeral recovers the
number, shifted under the accumulator. -/
theorem foldl_natDigits (n acc : Nat) :
    (natDigits n).foldl (fun a c => a * 10 + digitVal c) acc =
      acc * 10 ^ (natDigits n).length + n := by
  induction n using Nat.strong_induction_on generalizing acc with
  | _ n ih =>
    by_cases h : n < 10
    · rw [natDigits, if_pos h]
      simp [List.foldl, (digitChar_spec n h).2]
    · rw [natDigits, if_neg h]
      rw [List.foldl_append]
      rw [ih (n / 10) (Nat.div_lt_self (by omega) (by omega)) acc]
      simp only [List.foldl, List.length_append, List.length_singleton]
      rw [(digitChar_spec (n % 10) (Nat.mod_lt _ (by omega))).2]
      have hdm : n / 10 * 10 + n % 10 = n := by omega
      calc (acc * 10 ^ (natDigits (n / 10)).length + n / 10) * 10 + n % 10
          = acc * (10 ^ (natDigits (n / 10)).length * 10) + (n / 10 * 10 + n % 10) := by ring
        _ = acc * 10 ^ ((natDigits (n / 10)).length + 1) + n := by rw [hdm, pow_succ]

/-- `takeWhile` passes a prefix all of whose characters satisfy the
predicate. -/
theorem takeWhile_append_all {p : Char → Bool} (l r : List Char)
    (h : ∀ c ∈ l, p c = true) :
    (l ++ r).takeWhile p = l ++ r.takeWhile p := by
  induction l with
  | nil => simp
  | cons c l ih =>
    have hc : p c = true := h c (List.mem_cons_self c l)
    simp [List.takeWhile_cons, hc, ih fun x hx => h x (List.mem_cons_of_mem c hx)]

/-- `dropWhile` drops a prefix all of whose characters satisfy the
predicate. -/
theorem dropWhile_append_all {p : Char → Bool} (l r : List Char)
    (h : ∀ c ∈ l, p c = true) :
    (l ++ r).dropWhile p = r.dropWhile p := by
  induction l with
  | nil => simp
  | cons c l ih =>
    have hc : p c = true := h c (List.mem_cons_self c l)
    rw [List.cons_append, List.dropWhile_cons, hc]
    simp only [if_true]
    exact ih fun x hx => h x (List.mem_cons_of_mem c hx)

/-- The digit-run parser inverts the natural numeral printer when the
remainder does not begin with a digit. -/
theorem parseDigits_natDigits (n : Nat) (rest : List Char) (h : noDigitStart rest) :
    parseDigits (natDigits n ++ rest) = some (n, rest) := by
  have hall := natDigits_all n
  have htw : rest.takeWhile isDigitC = [] := by
    cases rest with
    | nil => rfl
    | cons c r => rw [List.takeWhile_cons, h]; rfl
  have hdw : rest.dropWhile isDigitC = rest := by
    cases rest with
    | nil => rfl
    | cons c r => rw [List.dropWhile_cons, h]; rfl
  obtain ⟨c, t, hct, _⟩ := natDigits_head n
  rw [parseDigits, takeWhile_append_all _ _ hall, dropWhile_append_all _ _ hall, htw, hdw,
    List.append_nil]
  have hne : (natDigits n).isEmpty = false := by rw [hct]; rfl
  rw [hne]
  simp only [Bool.false_eq_true, if_false]
  rw [foldl_natDigits]
  simp

/-- A digit character is none of the parser's dispatch or closing
characters, and is not whitespace. -/
theorem digit_char_props (c : Char) (h : isDigitC c = true) :
    isWsChar c = false ∧ c ≠ 'n' ∧ c ≠ 't' ∧ c ≠ 'f' ∧ c ≠ '"' ∧ c ≠ '{' ∧ c ≠ '[' ∧
      c ≠ '-' ∧ c ≠ ']' ∧ c ≠ '}' ∧ c ≠ ',' := by
  rw [isDigitC] at h
  simp only [Bool.and_eq_true, decide_eq_true_eq] at h
  refine ⟨?_, ?_, ?_, ?_, ?_, ?_, ?_, ?_, ?_, ?_, ?_⟩
  · rw [isWsChar]
    simp only [Bool.or_eq_false_iff, decide_eq_false_iff_not]
    omega
  all_goals exact fun heq => absurd (heq ▸ h) (by decide)

/-- The integer numeral printer starts with a character the value parser
dispatches to its numeral branch, and from there `parseNumberFrom` inverts
it when the remainder does not begin with a digit. -/
theorem parseNumber_intChars (n : Int) (rest : List Char) (h : noDigitStart rest) :
    ∃ c t, intChars n = c :: t
      ∧ isWsChar c = false ∧ c ≠ 'n' ∧ c ≠ 't' ∧ c ≠ 'f' ∧ c ≠ '"' ∧ c ≠ '{' ∧ c ≠ '[' ∧
        c ≠ ']' ∧ c ≠ '}' ∧ c ≠ ','
      ∧ parseNumberFrom c (t ++ rest) = some (n, rest) := by
  by_cases hneg : n < 0
  · refine ⟨'-', natDigits n.natAbs, by rw [intChars, if_pos hneg], by decide, by decide,
      by decide, by decide, by decide, by decide, by decide, by decide, by decide,
      by decide, ?_⟩
    rw [parseNumberFrom, if_pos rfl, parseDigits_natDigits n.natAbs rest h]
    have hval : -(n.natAbs : Int) = n := by omega
    simp only [Option.some.injEq, Prod.mk.injEq]
    exact ⟨hval, trivial⟩
  · obtain ⟨c, t, hct, hd⟩ := natDigits_head n.toNat
    obtain ⟨hws, hn, ht, hf, hq, hob, hosb, hminus, hcsb, hcb, hcomma⟩ := digit_char_props c hd
    refine ⟨c, t, by rw [intChars, if_neg hneg, hct], hws, hn, ht, hf, hq, hob, hosb,
      hcsb, hcb, hcomma, ?_⟩
    rw [parseNumberFrom, if_neg hminus, if_pos hd, ← List.cons_append, ← hct,
      parseDigits_natDigits n.toNat rest h]
    have hval : (n.toNat : Int) = n := by omega
    simp [hval]

/-! ## JSON printer/parser agreement, part 3: heads and whitespace -/

/-- Every printed value starts with a non-whitespace character that is not
a closing bracket or brace. -/
theorem printValue_head (v : Json) (d : Nat) :
    ∃ c t, printValue v d = c :: t ∧ isWsChar c = false ∧ c ≠ ']' ∧ c ≠ '}' := by
  cases v with
  | null =>
    exact ⟨'n', ['u', 'l', 'l'], by simp [printValue], by decide, by decide, by decide⟩
  | bool b =>
    cases b
    · exact ⟨'f', ['a', 'l', 's', 'e'], by simp [printValue], by decide, by decide, by decide⟩
    · exact ⟨'t', ['r', 'u', 'e'], by simp [printValue], by decide, by decide, by decide⟩
  | num n =>
    obtain ⟨c, t, hct, hws, _, _, _, _, _, _, hc1, hc2, _⟩ := parseNumber_intChars n [] trivial
    exact ⟨c, t, by simp [printValue, hct], hws, hc1, hc2⟩
  | str s =>
    exact ⟨'"', escapeList s.data ++ ['"'], by simp [printValue, quoteChars],
      by decide, by decide, by decide⟩
  | arr xs =>
    cases xs with
    | nil => exact ⟨'[', [']'], by simp [printValue], by decide, by decide, by decide⟩
    | cons x xs =>
      exact ⟨'[', '\n' :: (printElems (x :: xs) (d + 1) ++ '\n' :: (indentChars d ++ [']'])),
        by simp [printValue], by decide, by decide, by decide⟩
  | obj fs =>
    cases fs with
    | nil => exact ⟨'{', ['}'], by simp [printValue], by decide, by decide, by decide⟩
    | cons f fs =>
      exact ⟨'{', '\n' :: (printFields (f :: fs) (d + 1) ++ '\n' :: (indentChars d ++ ['}'])),
        by simp [printValue], by decide, by decide, by decide⟩

/-- The value parser ignores an all-whitespace prefix. -/
theorem parseValue_wsDrop (f : Nat) (l cs : List Char)
    (h : ∀ c ∈ l, isWsChar c = true) :
    parseValue f (l ++ cs) = parseValue f cs := by
  cases f with
  | zero => rfl
  | succ f =>
    simp only [parseValue]
    rw [skipWs_append_ws l cs h]

/-- The newline-plus-indentation separator is all whitespace. -/
theorem wsAll_nl_indent (k : Nat) : ∀ c ∈ '\n' :: indentChars k, isWsChar c = true := by
  intro c hc
  rcases List.mem_cons.mp hc with h | h
  · subst h; rfl
  · rw [List.eq_of_mem_replicate h]; rfl

/-- Fuel needs are positive: values. -/
theorem needValue_pos (v : Json) : 1 ≤ needValue v := by
  cases v <;> simp [needValue]

/-- Fuel needs are positive: element lists. -/
theorem needElems_pos (xs : List Json) : 1 ≤ needElems xs := by
  cases xs <;> simp [needElems]

/-- Fuel needs are positive: field lists. -/
theorem needFields_pos (fs : List (String × Json)) : 1 ≤ needFields fs := by
  cases fs <;> simp [needFields]

/-- After whitespace, printed array elements start with a value head, which
is neither a closing bracket nor a closing brace. -/
theorem skipWs_elems_head (x : Json) (xs : List Json) (d : Nat) (tail : List Char) :
    ∃ c0 z, skipWs (printElems (x :: xs) d ++ tail) = c0 :: z
      ∧ isWsChar c0 = false ∧ c0 ≠ ']' ∧ c0 ≠ '}' := by
  obtain ⟨c0, t0, hct, hws, h1, h2⟩ := printValue_head x d
  cases xs with
  | nil =>
    refine ⟨c0, t0 ++ tail, ?_, hws, h1, h2⟩
    simp only [printElems, List.append_assoc]
    rw [skipWs_indent, hct, List.cons_append, skipWs_cons_not_ws _ _ hws]
  | cons y ys =>
    refine ⟨c0, t0 ++ (',' :: '\n' :: (printElems (y :: ys) d ++ tail)), ?_, hws, h1, h2⟩
    simp only [printElems, List.append_assoc, List.cons_append]
    rw [skipWs_indent, hct]
    simp only [List.cons_append, List.append_assoc]
    rw [skipWs_cons_not_ws _ _ hws]

/-- After whitespace, printed object fields start with the opening quote of
the first key. -/
theorem skipWs_fields_head (k : String) (v : Json) (fs : List (String × Json)) (d : Nat)
    (tail : List Char) :
    ∃ z, skipWs (printFields ((k, v) :: fs) d ++ tail) = '"' :: z := by
  cases fs with
  | nil =>
    refine ⟨escapeList k.data ++ '"' :: (':' :: ' ' :: (printValue v d ++ tail)), ?_⟩
    simp only [printFields, quoteChars, List.append_assoc, List.cons_append]
    rw [skipWs_indent, skipWs_cons_not_ws _ _ (by decide)]
    simp [List.append_assoc]
  | cons g gs =>
    refine ⟨escapeList k.data ++ '"' :: (':' :: ' ' :: (printValue v d ++
      (',' :: '\n' :: (printFields (g :: gs) d ++ tail)))), ?_⟩
    simp only [printFields, quoteChars, List.append_assoc, List.cons_append]
    rw [skipWs_indent, skipWs_cons_not_ws _ _ (by decide)]
    simp [List.append_assoc]

/-- The parser inverts the printer: with fuel at least the need of the
value, parsing the printed value (or printed element lines, or printed
field lines, each with their closing bracket line) consumes exactly it and
returns it, leaving the remainder. -/
theorem parsePrint (f : Nat) :
    (∀ v d rest, needValue v ≤ f → noDigitStart rest →
      parseValue f (printValue v d ++ rest) = some (v, rest))
    ∧ (∀ xs d rest, xs ≠ [] → needElems xs ≤ f →
      parseElems f ('\n' :: (printElems xs (d + 1) ++ '\n' :: (indentChars d ++ ']' :: rest))) =
        some (xs, rest))
    ∧ (∀ fs d rest, fs ≠ [] → needFields fs ≤ f →
      parseFields f ('\n' :: (printFields fs (d + 1) ++ '\n' :: (indentChars d ++ '}' :: rest))) =
        some (fs, rest)) := by
  induction f with
  | zero =>
    refine ⟨fun v d rest hf _ => absurd hf (by have := needValue_pos v; omega),
      fun xs d rest _ hf => absurd hf (by have := needElems_pos xs; omega),
      fun fs d rest _ hf => absurd hf (by have := needFields_pos fs; omega)⟩
  | succ f ih =>
    obtain ⟨ihV, ihE, ihF⟩ := ih
    refine ⟨?_, ?_, ?_⟩
    · intro v d rest hf hrest
      cases v with
      | null =>
        simp only [printValue, List.cons_append, List.nil_append, parseValue]
        rw [skipWs_cons_not_ws _ _ (by decide)]
        simp [expectChars]
      | bool b =>
        cases b <;>
        · simp only [printValue, List.cons_append, List.nil_append, parseValue]
          rw [skipWs_cons_not_ws _ _ (by decide)]
          simp [expectChars]
      | num n =>
        obtain ⟨c, t, hct, hws, hn, ht2, hf2, hq, hob, hosb, hcsb, hcb, hcomma, hparse⟩ :=
          parseNumber_intChars n rest hrest
        simp only [printValue]
        rw [hct]
        simp only [List.cons_append, parseValue]
        rw [skipWs_cons_not_ws _ _ hws]
        simp [hn, ht2, hf2, hq, hob, hosb, hparse]
      | str s =>
        simp only [printValue, quoteChars, List.cons_append, List.append_assoc,
          List.singleton_append, parseValue]
        rw [skipWs_cons_not_ws _ _ (by decide)]
        simp [parseStringBody_escape, stringMk_data]
      | arr xs =>
        cases xs with
        | nil =>
          have h1 : skipWs (']' :: rest) = ']' :: rest := skipWs_cons_not_ws _ _ (by decide)
          simp only [printValue, List.cons_append, List.nil_append, parseValue]
          rw [skipWs_cons_not_ws _ _ (by decide)]
          simp [h1]
        | cons x xs =>
          have hfe : needElems (x :: xs) ≤ f := by
            simp only [needValue] at hf; omega
          obtain ⟨c0, z, hskip, hws0, hne0, _⟩ :=
            skipWs_elems_head x xs (d + 1) ('\n' :: (indentChars d ++ ']' :: rest))
          have hskip2 : skipWs ('\n' :: (printElems (x :: xs) (d + 1) ++
              '\n' :: (indentChars d ++ ']' :: rest))) = c0 :: z := by
            rw [skipWs_cons_ws _ _ (by decide), hskip]
          have hrec := ihE (x :: xs) d rest (List.cons_ne_nil x xs) hfe
          simp only [printValue, List.cons_append, List.append_assoc, List.singleton_append,
            parseValue]
          rw [skipWs_cons_not_ws _ _ (by decide)]
          simp [hskip2, hne0, hrec]
      | obj fs =>
        cases fs with
        | nil =>
          have h1 : skipWs ('}' :: rest) = '}' :: rest := skipWs_cons_not_ws _ _ (by decide)
          simp only [printValue, List.cons_append, List.nil_append, parseValue]
          rw [skipWs_cons_not_ws _ _ (by decide)]
          simp [h1]
        | cons kv fs =>
          obtain ⟨k, v⟩ := kv
          have hff : needFields ((k, v) :: fs) ≤ f := by
            simp only [needValue] at hf; omega
          obtain ⟨z, hskip⟩ :=
            skipWs_fields_head k v fs (d + 1) ('\n' :: (indentChars d ++ '}' :: rest))
          have hskip2 : skipWs ('\n' :: (printFields ((k, v) :: fs) (d + 1) ++
              '\n' :: (indentChars d ++ '}' :: rest))) = '"' :: z := by
            rw [skipWs_cons_ws _ _ (by decide), hskip]
          have hrec := ihF ((k, v) :: fs) d rest (List.cons_ne_nil (k, v) fs) hff
          simp only [printValue, List.cons_append, List.append_assoc, List.singleton_append,
            parseValue]
          rw [skipWs_cons_not_ws _ _ (by decide)]
          simp [hskip2, hrec]
    · intro xs d rest hxs hf
      cases xs with
      | nil => exact absurd rfl hxs
      | cons x xs' =>
        cases xs' with
        | nil =>
          have hfv : needValue x ≤ f := by simp only [needElems] at hf; omega
          have hA : ('\n' :: (printElems [x] (d + 1) ++
              '\n' :: (indentChars d ++ ']' :: rest)))
              = ('\n' :: indentChars (d + 1)) ++
                (printValue x (d + 1) ++ ('\n' :: (indentChars d ++ ']' :: rest))) := by
            simp [printElems, List.append_assoc]
          have hval : parseValue f ('\n' :: (printElems [x] (d + 1) ++
              '\n' :: (indentChars d ++ ']' :: rest))) =
              some (x, '\n' :: (indentChars d ++ ']' :: rest)) := by
            rw [hA, parseValue_wsDrop f _ _ (wsAll_nl_indent (d + 1))]
            exact ihV x (d + 1) _ hfv (by exact rfl)
          have htail : skipWs ('\n' :: (indentChars d ++ ']' :: rest)) = ']' :: rest := by
            rw [skipWs_cons_ws _ _ (by decide), skipWs_indent,
              skipWs_cons_not_ws _ _ (by decide)]
          simp only [parseElems]
          rw [hval]
          simp [htail]
        | cons y ys =>
          have hfv : needValue x ≤ f := by simp only [needElems] at hf; omega
          have hfe' : needElems (y :: ys) ≤ f := by
            simp only [needElems] at hf ⊢
            omega
          have hA : ('\n' :: (printElems (x :: y :: ys) (d + 1) ++
              '\n' :: (indentChars d ++ ']' :: rest)))
              = ('\n' :: indentChars (d + 1)) ++
                (printValue x (d + 1) ++ (',' :: '\n' :: (printElems (y :: ys) (d + 1) ++
                  '\n' :: (indentChars d ++ ']' :: rest)))) := by
            simp [printElems, List.append_assoc]
          have hval : parseValue f ('\n' :: (printElems (x :: y :: ys) (d + 1) ++
              '\n' :: (indentChars d ++ ']' :: rest))) =
              some (x, ',' :: '\n' :: (printElems (y :: ys) (d + 1) ++
                '\n' :: (indentChars d ++ ']' :: rest))) := by
            rw [hA, parseValue_wsDrop f _ _ (wsAll_nl_indent (d + 1))]
            exact ihV x (d + 1) _ hfv (by exact rfl)
          have hrec := ihE (y :: ys) d rest (List.cons_ne_nil y ys) hfe'
          have hcomma : skipWs (',' :: '\n' :: (printElems (y :: ys) (d + 1) ++
              '\n' :: (indentChars d ++ ']' :: rest))) =
              ',' :: '\n' :: (printElems (y :: ys) (d + 1) ++
                '\n' :: (indentChars d ++ ']' :: rest)) :=
            skipWs_cons_not_ws _ _ (by decide)
          simp only [parseElems]
          rw [hval]
          simp [hcomma, hrec]
    · intro fs d rest hfs hf
      cases fs with
      | nil => exact absurd rfl hfs
      | cons kv fs' =>
        obtain ⟨k, v⟩ := kv
        have hfv : needValue v ≤ f := by simp only [needFields] at hf; omega
        cases fs' with
        | nil =>
          have hA : ('\n' :: (printFields [(k, v)] (d + 1) ++
              '\n' :: (indentChars d ++ '}' :: rest)))
              = ('\n' :: indentChars (d + 1)) ++
                ('"' :: (escapeList k.data ++ '"' :: (':' :: ' ' :: (printValue v (d + 1) ++
                  ('\n' :: (indentChars d ++ '}' :: rest)))))) := by
            simp [printFields, quoteChars, List.append_assoc]
          have hskipA : skipWs ('\n' :: (printFields [(k, v)] (d + 1) ++
              '\n' :: (indentChars d ++ '}' :: rest))) =
              '"' :: (escapeList k.data ++ '"' :: (':' :: ' ' :: (printValue v (d + 1) ++
                ('\n' :: (indentChars d ++ '}' :: rest))))) := by
            rw [hA, skipWs_append_ws _ _ (wsAll_nl_indent (d + 1)),
              skipWs_cons_not_ws _ _ (by decide)]
          have hcolon : skipWs (':' :: (' ' :: (printValue v (d + 1) ++
              ('\n' :: (indentChars d ++ '}' :: rest))))) =
              ':' :: (' ' :: (printValue v (d + 1) ++
                ('\n' :: (indentChars d ++ '}' :: rest)))) :=
            skipWs_cons_not_ws _ _ (by decide)
          have hval : parseValue f (' ' :: (printValue v (d + 1) ++
              ('\n' :: (indentChars d ++ '}' :: rest)))) =
              some (v, '\n' :: (indentChars d ++ '}' :: rest)) := by
            have hws1 : ∀ c ∈ ([' '] : List Char), isWsChar c = true := by
              intro c hc; rw [List.mem_singleton] at hc; subst hc; rfl
            have hdrop := parseValue_wsDrop f [' '] (printValue v (d + 1) ++
              ('\n' :: (indentChars d ++ '}' :: rest))) hws1
            rw [List.singleton_append] at hdrop
            rw [hdrop]
            exact ihV v (d + 1) _ hfv (by exact rfl)
          have htail : skipWs ('\n' :: (indentChars d ++ '}' :: rest)) = '}' :: rest := by
            rw [skipWs_cons_ws _ _ (by decide), skipWs_indent,
              skipWs_cons_not_ws _ _ (by decide)]
          simp only [parseFields]
          rw [hskipA]
          simp [parseStringBody_escape, hcolon, hval, htail, stringMk_data]
        | cons g gs =>
          have hff' : needFields (g :: gs) ≤ f := by
            simp only [needFields] at hf ⊢
            omega
          have hA : ('\n' :: (printFields ((k, v) :: g :: gs) (d + 1) ++
              '\n' :: (indentChars d ++ '}' :: rest)))
              = ('\n' :: indentChars (d + 1)) ++
                ('"' :: (escapeList k.data ++ '"' :: (':' :: ' ' :: (printValue v (d + 1) ++
                  (',' :: '\n' :: (printFields (g :: gs) (d + 1) ++
                    '\n' :: (indentChars d ++ '}' :: rest))))))) := by
            simp [printFields, quoteChars, List.append_assoc]
          have hskipA : skipWs ('\n' :: (printFields ((k, v) :: g :: gs) (d + 1) ++
              '\n' :: (indentChars d ++ '}' :: rest))) =
              '"' :: (escapeList k.data ++ '"' :: (':' :: ' ' :: (printValue v (d + 1) ++
                (',' :: '\n' :: (printFields (g :: gs) (d + 1) ++
                  '\n' :: (indentChars d ++ '}' :: rest)))))) := by
            rw [hA, skipWs_append_ws _ _ (wsAll_nl_indent (d + 1)),
              skipWs_cons_not_ws _ _ (by decide)]
          have hcolon : skipWs (':' :: (' ' :: (printValue v (d + 1) ++
              (',' :: '\n' :: (printFields (g :: gs) (d + 1) ++
                '\n' :: (indentChars d ++ '}' :: rest)))))) =
              ':' :: (' ' :: (printValue v (d + 1) ++
                (',' :: '\n' :: (printFields (g :: gs) (d + 1) ++
                  '\n' :: (indentChars d ++ '}' :: rest))))) :=
            skipWs_cons_not_ws _ _ (by decide)
          have hval : parseValue f (' ' :: (printValue v (d + 1) ++
              (',' :: '\n' :: (printFields (g :: gs) (d + 1) ++
                '\n' :: (indentChars d ++ '}' :: rest))))) =
              some (v, ',' :: '\n' :: (printFields (g :: gs) (d + 1) ++
                '\n' :: (indentChars d ++ '}' :: rest))) := by
            have hws1 : ∀ c ∈ ([' '] : List Char), isWsChar c = true := by
              intro c hc; rw [List.mem_singleton] at hc; subst hc; rfl
            have hdrop := parseValue_wsDrop f [' '] (printValue v (d + 1) ++
              (',' :: '\n' :: (printFields (g :: gs) (d + 1) ++
                '\n' :: (indentChars d ++ '}' :: rest)))) hws1
            rw [List.singleton_append] at hdrop
            rw [hdrop]
            exact ihV v (d + 1) _ hfv (by exact rfl)
          have hcomma : skipWs (',' :: '\n' :: (printFields (g :: gs) (d + 1) ++
              '\n' :: (indentChars d ++ '}' :: rest))) =
              ',' :: '\n' :: (printFields (g :: gs) (d + 1) ++
                '\n' :: (indentChars d ++ '}' :: rest)) :=
            skipWs_cons_not_ws _ _ (by decide)
          have hrec := ihF (g :: gs) d rest (List.cons_ne_nil g gs) hff'
          simp only [parseFields]
          rw [hskipA]
          simp [parseStringBody_escape, hcolon, hval, hcomma, hrec, stringMk_data]

/-- A printed value is non-empty. -/
theorem printValue_length_pos (v : Json) (d : Nat) : 1 ≤ (printValue v d).length := by
  obtain ⟨c, t, hct, _⟩ := printValue_head v d
  rw [hct]
  simp

/-- The parse fuel a value needs is bounded by its printed length (plus one
for the element and field lemmas). -/
theorem need_le_length (n : Nat) :
    (∀ v d, needValue v ≤ n → needValue v ≤ (printValue v d).length)
    ∧ (∀ xs d, xs ≠ [] → needElems xs ≤ n →
        needElems xs ≤ (printElems xs d).length + 1)
    ∧ (∀ fs d, fs ≠ [] → needFields fs ≤ n →
        needFields fs ≤ (printFields fs d).length + 1) := by
  induction n with
  | zero =>
    refine ⟨fun v d hf => absurd hf (by have := needValue_pos v; omega),
      fun xs d hxs hf => absurd hf (by have := needElems_pos xs; omega),
      fun fs d hfs hf => absurd hf (by have := needFields_pos fs; omega)⟩
  | succ n ih =>
    obtain ⟨ihV, ihE, ihF⟩ := ih
    refine ⟨?_, ?_, ?_⟩
    · intro v d hf
      cases v with
      | null => simp [needValue, printValue]
      | bool b => cases b <;> simp [needValue, printValue]
      | num m => simpa [needValue] using printValue_length_pos (.num m) d
      | str s => simpa [needValue] using printValue_length_pos (.str s) d
      | arr xs =>
        cases xs with
        | nil => simp [needValue, needElems, printValue]
        | cons x xs =>
          have hfe : needElems (x :: xs) ≤ n := by simp only [needValue] at hf; omega
          have h1 := ihE (x :: xs) (d + 1) (List.cons_ne_nil x xs) hfe
          simp only [needValue, printValue, List.length_cons, List.length_append,
            indentChars, List.length_replicate]
          omega
      | obj fs =>
        cases fs with
        | nil => simp [needValue, needFields, printValue]
        | cons g fs =>
          have hff : needFields (g :: fs) ≤ n := by simp only [needValue] at hf; omega
          have h1 := ihF (g :: fs) (d + 1) (List.cons_ne_nil g fs) hff
          simp only [needValue, printValue, List.length_cons, List.length_append,
            indentChars, List.length_replicate]
          omega
    · intro xs d hxs hf
      cases xs with
      | nil => exact absurd rfl hxs
      | cons x xs' =>
        have hfv : needValue x ≤ n := by simp only [needElems] at hf; omega
        have hvx := ihV x d hfv
        have hpos := printValue_length_pos x d
        cases xs' with
        | nil =>
          simp only [needElems, printElems, List.length_append, indentChars,
            List.length_replicate]
          omega
        | cons y ys =>
          have hfe' : needElems (y :: ys) ≤ n := by simp only [needElems] at hf ⊢; omega
          have h2 := ihE (y :: ys) d (List.cons_ne_nil y ys) hfe'
          simp only [needElems] at h2 ⊢
          simp only [printElems, List.length_append, List.length_cons, indentChars,
            List.length_replicate]
          omega
    · intro fs d hfs hf
      cases fs with
      | nil => exact absurd rfl hfs
      | cons kv fs' =>
        obtain ⟨k, v⟩ := kv
        have hfv : needValue v ≤ n := by simp only [needFields] at hf; omega
        have hvx := ihV v d hfv
        have hpos := printValue_length_pos v d
        cases fs' with
        | nil =>
          simp only [needFields, printFields, quoteChars, List.length_append,
            List.length_cons, indentChars, List.length_replicate]
          omega
        | cons g gs =>
          have hff' : needFields (g :: gs) ≤ n := by simp only [needFields] at hf ⊢; omega
          have h2 := ihF (g :: gs) d (List.cons_ne_nil g gs) hff'
          simp only [needFields] at h2 ⊢
          simp only [printFields, quoteChars, List.length_append, List.length_cons,
            indentChars, List.length_replicate]
          omega

/-- The fuel bound for one whole printed value. -/
theorem needValue_le_length (v : Json) (d : Nat) :
    needValue v ≤ (printValue v d).length :=
  (need_le_length (needValue v)).1 v d le_rfl

/-- Parsing inverts serialization: `JSON.parse(JSON.stringify(v, null, 2))`
recovers any value deep-equally. -/
theorem jsonParse_jsonStringify (v : Json) : jsonParse (jsonStringify v) = some v := by
  have hlen : needValue v ≤ (printValue v 0).length + 1 :=
    le_trans (needValue_le_length v 0) (by omega)
  have h := (parsePrint ((printValue v 0).length + 1)).1 v 0 [] hlen trivial
  rw [List.append_nil] at h
  show jsonParse (String.mk (printValue v 0)) = some v
  unfold jsonParse
  have hdata : (String.mk (printValue v 0)).data = printValue v 0 := rfl
  rw [hdata, h]
  simp [skipWs]

/-! ## Claim C2 — error reporting and process exit codes -/

/-- Claim C2, refuted as stated: a pull of a never-linked file fails (the
not-linked diagnostic is printed), yet the handler returns normally and the
process exits 0, not non-zero. -/
theorem C2_counterexample :
    (pullCommand "content/x.md" {} pullUnlinkedEnv).errors =
      [notLinkedMsg "content/x.md"]
    ∧ (pullCommand "content/x.md" {} pullUnlinkedEnv).exitCode = 0 := by
  refine ⟨rfl, rfl⟩

/-- Claim C2 as amended: push/pull failures print one human-readable
`console.error` line carrying the thrown error's message (or the not-linked
diagnostic naming the file), but the handlers catch these errors and return
normally, so the process exits 0 for them; only an error thrown while
loading the manifest in pull, which happens outside the `try`, escapes the
handler and makes the process exit non-zero. -/
theorem C2_error_reporting_amended (fp docx msg : String) (pushOpts : PushOptions)
    (pullOpts : PullOptions) (penv : PushEnv) (qenv : PullEnv) (mq : ManifestDoc)
    (infoq : FileEntry) :
    (pushOpts.dryRun = false → penv.mdConvert = .error msg →
      (pushCommand fp pushOpts penv).errors = ["✗ Error: " ++ msg]
      ∧ (pushCommand fp pushOpts penv).exitCode = 0)
    ∧ (pushOpts.dryRun = false → penv.mdConvert = .ok docx →
        penv.manifestLoad = .error msg →
      (pushCommand fp pushOpts penv).errors = ["✗ Error: " ++ msg]
      ∧ (pushCommand fp pushOpts penv).exitCode = 0)
    ∧ (qenv.manifestLoad = .ok mq → jsLookup mq.files fp = none →
      (pullCommand fp pullOpts qenv).errors = [notLinkedMsg fp]
      ∧ (pullCommand fp pullOpts qenv).exitCode = 0)
    ∧ (pullOpts.dryRun = false → qenv.manifestLoad = .ok mq →
        jsLookup mq.files fp = some infoq → infoq.gdocId ≠ "" →
        qenv.docxConvert = .error msg →
      (pullCommand fp pullOpts qenv).errors = ["✗ Error: " ++ msg]
      ∧ (pullCommand fp pullOpts qenv).exitCode = 0)
    ∧ (qenv.manifestLoad = .error msg →
      (pullCommand fp pullOpts qenv).exitCode = 1
      ∧ (pullCommand fp pullOpts qenv).uncaught = some msg) := by
  refine ⟨fun hdry hconv => ?_, fun hdry hconv hload => ?_, fun hload hfind => ?_,
    fun hdry hload hfind htruthy hconv => ?_, fun hload => ?_⟩
  · simp [pushCommand, hdry, hconv]
  · simp [pushCommand, hdry, hconv, hload]
  · simp [pullCommand, hload, hfind]
  · simp [pullCommand, hdry, hconv, hload, hfind, htruthy]
  · simp [pullCommand, hload]

/-- Witness for `C2_error_reporting_amended`: each failure mode at concrete
inputs. -/
theorem C2_witness :
    ((pushCommand "a.md" {}
        { manifestLoad := .ok ⟨[]⟩, mdConvert := .error "Pandoc is not installed",
          createdId := "g", now := "t" }).errors =
      ["✗ Error: " ++ "Pandoc is not installed"]
      ∧ (pushCommand "a.md" {}
        { manifestLoad := .ok ⟨[]⟩, mdConvert := .error "Pandoc is not installed",
          createdId := "g", now := "t" }).exitCode = 0)
    ∧ ((pullCommand "a.md" {}
        { manifestLoad := .ok ⟨[("a.md", ⟨"g0", "t0"⟩)]⟩,
          docxConvert := .error "Pandoc conversion failed", now := "t" }).errors =
      ["✗ Error: " ++ "Pandoc conversion failed"]
      ∧ (pullCommand "a.md" {}
        { manifestLoad := .ok ⟨[("a.md", ⟨"g0", "t0"⟩)]⟩,
          docxConvert := .error "Pandoc conversion failed", now := "t" }).exitCode = 0)
    ∧ ((pullCommand "a.md" {}
        { manifestLoad := .error "Unexpected token i in JSON",
          docxConvert := .ok "a.md", now := "t" }).exitCode = 1
      ∧ (pullCommand "a.md" {}
        { manifestLoad := .error "Unexpected token i in JSON",
          docxConvert := .ok "a.md", now := "t" }).uncaught =
        some "Unexpected token i in JSON") :=
  ⟨(C2_error_reporting_amended "a.md" "a.docx" "Pandoc is not installed" {} {}
      { manifestLoad := .ok ⟨[]⟩, mdConvert := .error "Pandoc is not installed",
        createdId := "g", now := "t" }
      { manifestLoad := .ok ⟨[]⟩, docxConvert := .ok "a.md", now := "t" }
      ⟨[]⟩ ⟨"", ""⟩).1 rfl rfl,
   (C2_error_reporting_amended "a.md" "a.docx" "Pandoc conversion failed" {} {}
      { manifestLoad := .ok ⟨[]⟩, mdConvert := .ok "a.docx",
        createdId := "g", now := "t" }
      { manifestLoad := .ok ⟨[("a.md", ⟨"g0", "t0"⟩)]⟩,
        docxConvert := .error "Pandoc conversion failed", now := "t" }
      ⟨[("a.md", ⟨"g0", "t0"⟩)]⟩ ⟨"g0", "t0"⟩).2.2.2.1
      rfl rfl (by decide) (by decide) rfl,
   (C2_error_reporting_amended "a.md" "a.docx" "Unexpected token i in JSON" {} {}
      { manifestLoad := .ok ⟨[]⟩, mdConvert := .ok "a.docx",
        createdId := "g", now := "t" }
      { manifestLoad := .error "Unexpected token i in JSON",
        docxConvert := .ok "a.md", now := "t" }
      ⟨[]⟩ ⟨"", ""⟩).2.2.2.2 rfl⟩

/-! ## Claim C4 — pull of an unlinked file aborts first -/

/-- Claim C4: a pull of a file whose manifest entry is missing (or has a
falsy `gdocId`) surfaces exactly the not-linked diagnostic and performs no
authentication, no conversion and no manifest write — in dry-run and real
mode alike, since the linked-file check precedes both branches; the only
I/O is the manifest read itself. -/
theorem C4_pull_not_linked (fp : String) (opts : PullOptions) (env : PullEnv)
    (m : ManifestDoc) (hload : env.manifestLoad = .ok m)
    (hlink : jsLookup m.files fp = none
      ∨ ∃ info, jsLookup m.files fp = some info ∧ info.gdocId = "") :
    (pullCommand fp opts env).errors = [notLinkedMsg fp]
    ∧ (pullCommand fp opts env).authCalls = 0
    ∧ (pullCommand fp opts env).toolCalls = 0
    ∧ (pullCommand fp opts env).manifestWrites = [] := by
  rcases hlink with hnone | ⟨info, hsome, hempty⟩
  · simp [pullCommand, hload, hnone]
  · simp [pullCommand, hload, hsome, hempty]

/-- Witness for `C4_pull_not_linked`: dry-run pull on an empty manifest. -/
theorem C4_witness :
    (pullCommand "content/x.md" ⟨true⟩ pullUnlinkedEnv).errors =
      [notLinkedMsg "content/x.md"]
    ∧ (pullCommand "content/x.md" ⟨true⟩ pullUnlinkedEnv).authCalls = 0
    ∧ (pullCommand "content/x.md" ⟨true⟩ pullUnlinkedEnv).toolCalls = 0
    ∧ (pullCommand "content/x.md" ⟨true⟩ pullUnlinkedEnv).manifestWrites = [] :=
  C4_pull_not_linked "content/x.md" ⟨true⟩ pullUnlinkedEnv ⟨[]⟩ rfl (Or.inl rfl)

/-! ## Claim C6 — dry-run purity -/

/-- Claim C6: with dry-run enabled, push and pull never invoke the external
tool, never authenticate and never call `saveManifest`, whatever the
environment (in particular whether or not the source file exists or could
be converted); and dry-run push always exits 0 without error output. -/
theorem C6_dry_run_purity (fp : String) (pushOpts : PushOptions)
    (pullOpts : PullOptions) (penv : PushEnv) (qenv : PullEnv)
    (hp : pushOpts.dryRun = true) (hq : pullOpts.dryRun = true) :
    (pushCommand fp pushOpts penv).toolCalls = 0
    ∧ (pushCommand fp pushOpts penv).authCalls = 0
    ∧ (pushCommand fp pushOpts penv).manifestWrites = []
    ∧ (pushCommand fp pushOpts penv).exitCode = 0
    ∧ (pushCommand fp pushOpts penv).errors = []
    ∧ (pullCommand fp pullOpts qenv).toolCalls = 0
    ∧ (pullCommand fp pullOpts qenv).authCalls = 0
    ∧ (pullCommand fp pullOpts qenv).manifestWrites = [] := by
  refine ⟨?_, ?_, ?_, ?_, ?_, ?_, ?_, ?_⟩ <;>
    first
    | simp [pushCommand, hp]
    | (rcases hload : qenv.manifestLoad with msg | mq
       · simp [pullCommand, hload]
       · rcases hfind : jsLookup mq.files fp with _ | info
         · simp [pullCommand, hload, hfind]
         · by_cases hgd : info.gdocId = "" <;>
             simp [pullCommand, hload, hfind, hgd, hq])

/-- Witness for `C6_dry_run_purity`: dry-run push and pull over a linked
manifest whose conversions would fail, showing nothing is invoked. -/
theorem C6_witness :
    (pushCommand "a.md" { dryRun := true }
      { manifestLoad := .error "corrupt", mdConvert := .error "no source file",
        createdId := "g", now := "t" }).toolCalls = 0
    ∧ (pushCommand "a.md" { dryRun := true }
      { manifestLoad := .error "corrupt", mdConvert := .error "no source file",
        createdId := "g", now := "t" }).exitCode = 0
    ∧ (pullCommand "a.md" ⟨true⟩
      { manifestLoad := .ok ⟨[("a.md", ⟨"g0", "t0"⟩)]⟩,
        docxConvert := .error "no pandoc", now := "t" }).toolCalls = 0
    ∧ (pullCommand "a.md" ⟨true⟩
      { manifestLoad := .ok ⟨[("a.md", ⟨"g0", "t0"⟩)]⟩,
        docxConvert := .error "no pandoc", now := "t" }).manifestWrites = [] :=
  ⟨(C6_dry_run_purity "a.md" { dryRun := true } ⟨true⟩
      { manifestLoad := .error "corrupt", mdConvert := .error "no source file",
        createdId := "g", now := "t" }
      { manifestLoad := .ok ⟨[("a.md", ⟨"g0", "t0"⟩)]⟩,
        docxConvert := .error "no pandoc", now := "t" } rfl rfl).1,
   (C6_dry_run_purity "a.md" { dryRun := true } ⟨true⟩
      { manifestLoad := .error "corrupt", mdConvert := .error "no source file",
        createdId := "g", now := "t" }
      { manifestLoad := .ok ⟨[("a.md", ⟨"g0", "t0"⟩)]⟩,
        docxConvert := .error "no pandoc", now := "t" } rfl rfl).2.2.2.1,
   (C6_dry_run_purity "a.md" { dryRun := true } ⟨true⟩
      { manifestLoad := .error "corrupt", mdConvert := .error "no source file",
        createdId := "g", now := "t" }
      { manifestLoad := .ok ⟨[("a.md", ⟨"g0", "t0"⟩)]⟩,
        docxConvert := .error "no pandoc", now := "t" } rfl rfl).2.2.2.2.2.1,
   (C6_dry_run_purity "a.md" { dryRun := true } ⟨true⟩
      { manifestLoad := .error "corrupt", mdConvert := .error "no source file",
        createdId := "g", now := "t" }
      { manifestLoad := .ok ⟨[("a.md", ⟨"g0", "t0"⟩)]⟩,
        docxConvert := .error "no pandoc", now := "t" } rfl rfl).2.2.2.2.2.2.2⟩

/-! ## Claim C3 — manifest write/read round trip -/

/-- Claim C3: for every JSON value `M`, writing the manifest and immediately
reading the same path back returns a value deep-equal to `M`, and the file
is written as the 2-space-indented serialization, fully replacing any prior
content at the path (the result is independent of the previous filesystem
contents). -/
theorem C3_manifest_roundtrip (M : Json) (p : String) (fs : FileSystem) :
    readManifest (writeManifest M p fs) p = .ok M
    ∧ writeManifest M p fs p = some (jsonStringify M) := by
  constructor
  · simp [readManifest, writeManifest, jsonParse_jsonStringify]
  · simp [writeManifest]

end DraftSync
